import Mathlib

/-!
Verification of the rlm-rs RLM orchestrator against its specification

Shallow embedding of the core of the `rlm-rs` repository (`src/parsing.rs`,
`src/prompts.rs`, `src/types.rs`, `src/error.rs`, `src/rlm.rs`) in Lean 4,
together with theorems settling the frozen claims C1..C10.

Modelling conventions:
* Rust `String`/`&str` values are modelled as `List Char` (`Str` below).
  All of the parsing code indexes strings with `char_indices` byte offsets
  that sit on character boundaries, so character positions are an order
  isomorphic substitute for byte positions in every function embedded here.
  (`str::len`, used only to display the context size inside the system
  prompt, is modelled as the character count; no claim depends on it.)
* `char::is_alphabetic` / `char::is_alphanumeric` are modelled by the ASCII
  classifiers `Char.isAlpha` / `Char.isAlphAnum`, and `str::to_lowercase` by
  an ASCII per-character lowercase map.  Every claim and every concrete
  input exercised below is ASCII, where these agree with Rust exactly.
* `u64` token counters are modelled as `Nat` (no claim involves overflow).
* `f32` sampling temperatures are modelled as `ℚ`: the code only copies
  temperatures around and compares them with `> 0.0`.
* `HashMap<String, String>` namespace snapshots are modelled as association
  lists with unique keys; only `get` is used by the embedded code.
* The Python interpreter (`src/env.rs` is not part of the sources; only its
  interface is visible in `rlm.rs`) and the HTTP transports are modelled as
  oracles: an abstract state type `σ` with a total `execStep` function, and
  a total LM function from message histories to replies.  Transport errors
  are therefore out of scope of the loop theorems, which describe runs in
  which every LM call returns a reply.
* `std::time` durations and the verbose/exec-log printing are omitted: they
  carry no information any claim depends on.
-/

namespace RlmRs

/-- Rust strings, modelled as lists of characters. -/
abbrev Str := List Char

/-! Section: Generic string helpers (models of Rust `str` primitives) -/

/-- Model of `str::find(pattern)`: index of the first occurrence of `p`
as a contiguous substring, if any. -/
def firstFind (p : Str) : Str → Option Nat
  | [] => if p.isPrefixOf [] then some 0 else none
  | c :: rest =>
    if p.isPrefixOf (c :: rest) then some 0
    else (firstFind p rest).map (fun n => n + 1)

/-- Model of `str::contains(pattern)` for a substring pattern. -/
def containsSub (p : Str) : Str → Bool
  | [] => p.isPrefixOf []
  | c :: rest => p.isPrefixOf (c :: rest) || containsSub p rest

/-- One pass of `str::replace` specialised to a two-character pattern
`[a, b]` replaced by the single character `rep` (leftmost, non-overlapping,
exactly as `str::replace` behaves for these patterns). -/
def unescapePass (a b rep : Char) : Str → Str
  | [] => []
  | [c] => [c]
  | c :: d :: rest =>
    if c = a ∧ d = b then rep :: unescapePass a b rep rest
    else c :: unescapePass a b rep (d :: rest)

/-- Model of Rust `char::is_whitespace` (the Unicode `White_Space`
property, written out as the full list of code points). -/
def rustIsWhitespace (c : Char) : Bool :=
  c ∈ ['\t', '\n', '\x0b', '\x0c', '\r', ' ', '\x85', '\xa0',
       '\u1680', '\u2000', '\u2001', '\u2002', '\u2003', '\u2004',
       '\u2005', '\u2006', '\u2007', '\u2008', '\u2009', '\u200a',
       '\u2028', '\u2029', '\u202f', '\u205f', '\u3000']

/-- Model of `str::trim` (strip `char::is_whitespace` from both ends). -/
def trimChars (l : Str) : Str :=
  ((l.dropWhile rustIsWhitespace).reverse.dropWhile rustIsWhitespace).reverse

/-- ASCII model of `str::to_lowercase` (per-character). -/
def toLowerList (l : Str) : Str := l.map Char.toLower

/-- Model of `HashMap<String, String>::get` on an association list with
unique keys (the namespace string snapshot). -/
def lookupLocal : List (Str × Str) → Str → Option Str
  | [], _ => none
  | (k, v) :: rest, key => if k = key then some v else lookupLocal rest key

/-! Section: Data model (src/types.rs) -/

/-- Source `types.rs`: token usage counters (`u64` fields modelled as `Nat`). -/
structure Usage where
  input_tokens : Nat
  output_tokens : Nat
  total_tokens : Nat
  deriving Repr, DecidableEq

/-- Source `Usage::default()`. -/
def Usage.zero : Usage := ⟨0, 0, 0⟩

/-- Source `Usage::new(input, output)`. -/
def Usage.new (input output : Nat) : Usage := ⟨input, output, input + output⟩

/-- Source `Usage::add(&mut self, other)`, as a pure update. -/
def Usage.addU (u other : Usage) : Usage :=
  ⟨u.input_tokens + other.input_tokens,
   u.output_tokens + other.output_tokens,
   u.total_tokens + other.total_tokens⟩

/-- Source `types.rs`: message roles. -/
inductive Role
  | system
  | user
  | assistant
  deriving Repr, DecidableEq

/-- Source `types.rs`: a chat message. -/
structure Message where
  role : Role
  content : Str
  deriving Repr, DecidableEq

/-- Source `Message::system`. -/
def Message.mkSystem (content : Str) : Message := ⟨Role.system, content⟩

/-- Source `Message::user`. -/
def Message.mkUser (content : Str) : Message := ⟨Role.user, content⟩

/-- Source `Message::assistant`. -/
def Message.mkAssistant (content : Str) : Message := ⟨Role.assistant, content⟩

/-- Source `types.rs`: result of one code execution in the REPL.  The `llm_calls`
trace and the wall time are omitted (no claim reads them). -/
structure ReplResult where
  stdout : Str
  stderr : Str
  locals : List (Str × Str)
  success : Bool
  error : Option Str
  llm_output : Option Str
  deriving Repr, DecidableEq

/-- Source `types.rs`: an extracted code block with its execution result. -/
structure CodeBlock where
  code : Str
  result : Option ReplResult
  retry_count : Nat
  deriving Repr, DecidableEq

/-- Source `types.rs`: one iteration record of the RLM loop (wall time omitted). -/
structure RlmIteration where
  iteration : Nat
  response : Str
  code_blocks : List CodeBlock
  final_answer : Option Str
  deriving Repr, DecidableEq

/-- Source `types.rs`: the final completion (wall time omitted; the `prompt` field
is kept as the raw context string, the `PromptInput::Text` case used by
`completion_with_context`). -/
structure RlmCompletion where
  prompt : Str
  response : Str
  iterations : List RlmIteration
  usage : Usage
  deriving Repr, DecidableEq

/-- Source `types.rs`: the LLM backend tag. -/
inductive Backend
  | openai
  | anthropic
  deriving Repr, DecidableEq

/-- Source `types.rs`: the immutable per-run configuration.  `temperature : f32`
is modelled as `ℚ` (only copied and compared with `> 0.0`). -/
structure RlmConfig where
  model : Str
  max_iterations : Nat
  max_exec_retries : Nat
  temperature : ℚ
  max_tokens : Option Nat
  verbose : Bool
  exec_log : Bool
  backend : Backend
  base_url : Option Str
  api_key : Option Str

/-- Source `error.rs`: the error enum (payloads of the transport/serde variants
modelled as plain strings). -/
inductive RlmError
  | openAi (msg : Str)
  | json (msg : Str)
  | python (msg : Str)
  | pyO3 (msg : Str)
  | runtime (msg : Str)
  | maxIterationsReached (n : Nat)
  | missingApiKey
  | config (msg : Str)
  deriving Repr, DecidableEq

/-! Section: Response parser (src/parsing.rs) -/

/-- Source `parsing.rs` `extract_code_blocks`: helper finding the earliest opening
fence.  The regex `(?:repl|python)` is anchored right after three backticks
followed by a newline; at any one position at most one of the two tags can
match, so checking `repl` then `python` at each position in turn is the
leftmost-match rule of the regex.  Returns the text after the opening fence. -/
def findOpenFence : Str → Option Str
  | [] => none
  | c :: rest =>
    if ("```repl\n".toList).isPrefixOf (c :: rest) then
      some ((c :: rest).drop 8)
    else if ("```python\n".toList).isPrefixOf (c :: rest) then
      some ((c :: rest).drop 10)
    else findOpenFence rest

/-- Source `parsing.rs` `extract_code_blocks`: helper splitting at the earliest
occurrence of three backticks (the non-greedy `([\s\S]*?)` capture followed
by three backticks): returns the capture and the text after the closing
backticks. -/
def splitAtTicks : Str → Option (Str × Str)
  | [] => none
  | c :: rest =>
    if ("```".toList).isPrefixOf (c :: rest) then
      some ([], (c :: rest).drop 3)
    else (splitAtTicks rest).map (fun p => (c :: p.1, p.2))

/-- Fuel-indexed worker for `extract_code_blocks`; the fuel only bounds the
number of blocks, which is at most the text length.  If the earliest
opening fence has no three-backtick sequence after it, there is no match:
no later opening fence can exist either, since every opening fence itself
contains three consecutive backticks, which would have closed the earlier
one (the regex engine finds no further match start). -/
def extractCodeBlocksAux : Nat → Str → List Str
  | 0, _ => []
  | fuel + 1, l =>
    match findOpenFence l with
    | none => []
    | some rest =>
      match splitAtTicks rest with
      | none => []
      | some (inner, after) => inner :: extractCodeBlocksAux fuel after

/-- Source `parsing.rs` `extract_code_blocks`: all captures of the regex
`(three backticks)(?:repl|python)\n([\s\S]*?)(three backticks)` over the
text, in order, non-overlapping and leftmost (as `captures_iter`). -/
def extract_code_blocks (text : Str) : List Str :=
  extractCodeBlocksAux (text.length + 1) text

/-- Source `parsing.rs` `extract_final_answer_raw`, emoticon set: a closing paren
whose immediately preceding character is one of these is skipped (at the
moment the depth would reach zero). -/
def emoticonChar (c : Char) : Bool :=
  c ∈ [':', ';', '=', '8', 'X', 'x', 'D', 'P', 'p']

/-- The emoticon test `i > 0 && prev ∈ set`: the previous character exists
and is in the emoticon set. -/
def isEmoticonPrev : Option Char → Bool
  | some p => emoticonChar p
  | none => false

/-- Source `parsing.rs` `extract_final_answer_raw`, paren-matching scan (both
passes; `emo` tells whether emoticon closes are suppressed).  Arguments:
the remaining text, the current index `i`, the depth, the string-literal
state (`some quote` when inside a string opened by `quote`), and the
previous character.  Returns the index of the matching close, if found. -/
def scanClose (emo : Bool) : Str → Nat → Nat → Option Char → Option Char → Option Nat
  | [], _, _, _, _ => none
  | c :: rest, i, depth, inStr, prev =>
    match inStr with
    | some q =>
      if c = q ∧ prev ≠ some '\\' then
        scanClose emo rest (i + 1) depth none (some c)
      else
        scanClose emo rest (i + 1) depth (some q) (some c)
    | none =>
      if c = '"' ∨ c = '\'' then
        scanClose emo rest (i + 1) depth (some c) (some c)
      else if c = '(' then
        scanClose emo rest (i + 1) (depth + 1) none (some c)
      else if c = ')' then
        if depth = 1 then
          if emo ∧ isEmoticonPrev prev = true then
            scanClose emo rest (i + 1) 1 none (some c)
          else some i
        else
          scanClose emo rest (i + 1) (depth - 1) none (some c)
      else
        scanClose emo rest (i + 1) depth none (some c)

/-- Source `parsing.rs` `has_code_patterns`, main loop: an identifier character
run directly followed by an opening paren. -/
def hasCallPattern : Bool → Str → Bool
  | _, [] => false
  | inIdent, c :: rest =>
    if c.isAlpha ∨ c = '_' then hasCallPattern true rest
    else if c = '(' ∧ inIdent then true
    else if ¬(c.isAlphanum ∨ c = '_') then hasCallPattern false rest
    else hasCallPattern inIdent rest

/-- Source `parsing.rs` `has_code_patterns`. -/
def has_code_patterns (text : Str) : Bool :=
  hasCallPattern false text
    || text.contains '+' || text.contains '*' || text.contains '/' || text.contains '['

/-- Source `parsing.rs` `looks_like_prose`, the prefix patterns. -/
def proseStartPatterns : List Str :=
  [("output from").toList, ("result of").toList, ("this is the").toList,
   ("this is a").toList, ("the result").toList, ("here is").toList]

/-- Source `parsing.rs` `looks_like_prose`, the anywhere-in-text indicators. -/
def proseStrongPatterns : List Str :=
  [("executing code").toList, ("execution of").toList,
   ("demonstration of").toList, ("example of how").toList]

/-- Source `parsing.rs` `looks_like_prose`. -/
def looks_like_prose (text : Str) : Bool :=
  if has_code_patterns text then false
  else
    let lower := toLowerList text
    proseStartPatterns.any (fun p => p.isPrefixOf lower)
      || proseStrongPatterns.any (fun p => containsSub p lower)

/-- Source `parsing.rs` `is_identifier` (`is_alphabetic`/`is_alphanumeric`
modelled on ASCII, see file header). -/
def is_identifier (s : Str) : Bool :=
  match s with
  | [] => false
  | c :: rest => (c.isAlpha ∨ c = '_') && rest.all (fun d => d.isAlphanum || d = '_')

/-- Source `parsing.rs` `unescape_string_literal`.  The `2 ≤ t.length` guard
excludes the inputs on which the Rust slice `&t[1..t.len()-1]` would panic
(a single bare quote, unreachable from the parser: a lone quote opens a
string literal the scan never closes). -/
def unescape_string_literal (s : Str) : Str :=
  let t := trimChars s
  if 2 ≤ t.length ∧
      ((t.head? = some '"' ∧ t.getLast? = some '"')
        ∨ (t.head? = some '\'' ∧ t.getLast? = some '\'')) then
    unescapePass '\\' 't' '\t' (unescapePass '\\' 'n' '\n' (t.drop 1).dropLast)
  else s

/-- Source `parsing.rs` `extract_final_answer_raw`, the `while let` search loop,
fuel-indexed by the remaining search window (each pass strictly advances
`search_start`, so `text.length + 1` passes always suffice). -/
def extractFinalAux (locals : List (Str × Str)) :
    Nat → Str → Nat → Option Str
  | 0, _, _ => none
  | fuel + 1, text, searchStart =>
    match firstFind ("FINAL(".toList) (text.drop searchStart) with
    | none => none
    | some pos =>
      let startPos := searchStart + pos
      let validPos : Bool :=
        decide (startPos = 0) ||
          (match (text.take startPos).getLast? with
           | some c => decide (c = '\n') || rustIsWhitespace c || decide (c = ':')
           | none => false)
      if validPos then
        let contentStart := startPos + 6
        let remaining := text.drop contentStart
        let endPos : Option Nat :=
          match scanClose true remaining 0 1 none none with
          | some i => some (contentStart + i)
          | none => (scanClose false remaining 0 1 none none).map
              (fun i => contentStart + i)
        match endPos with
        | some endP =>
          let content := trimChars (remaining.take (endP - contentStart))
          if looks_like_prose content then
            extractFinalAux locals fuel text (endP + 1)
          else
            match (if is_identifier content then lookupLocal locals content else none) with
            | some v => some v
            | none => some (unescape_string_literal content)
        | none => extractFinalAux locals fuel text (startPos + 1)
      else extractFinalAux locals fuel text (startPos + 1)

/-- Source `parsing.rs` `extract_final_answer_raw`. -/
def extract_final_answer_raw (text : Str) (locals : List (Str × Str)) : Option Str :=
  extractFinalAux locals (text.length + 1) text 0

/-- Source `parsing.rs` `extract_final_answer` (empty locals). -/
def extract_final_answer (text : Str) : Option Str :=
  extract_final_answer_raw text []

/-- Source `parsing.rs` `extract_answer` (alias for `extract_final_answer_raw`). -/
def extract_answer (text : Str) (locals : List (Str × Str)) : Option Str :=
  extract_final_answer_raw text locals

/-- Model of Rust `str::lines`: split on newlines, no trailing empty line,
and a trailing carriage return stripped from each line. -/
def rustLines (l : Str) : List Str :=
  let parts := l.splitOn '\n'
  let parts := if parts.getLast? = some [] then parts.dropLast else parts
  parts.map (fun line => if line.getLast? = some '\r' then line.dropLast else line)

/-- Model of `str::strip_prefix`. -/
def stripPrefixStr (p l : Str) : Option Str :=
  if p.isPrefixOf l then some (l.drop p.length) else none

/-- Source `parsing.rs` `extract_final_answer_from_stdout`: the remainder of the
first stdout line starting with `FINAL_ANSWER: `. -/
def extract_final_answer_from_stdout (stdout : Str) : Option Str :=
  (rustLines stdout).findSome? (fun line => stripPrefixStr ("FINAL_ANSWER: ".toList) line)

/-! Section: Prompt builder (src/prompts.rs)

The texts are transcribed byte-for-byte from the Rust sources (apostrophes
are written `\x27`; the `\n` sequences appearing inside the Python examples
of the system prompt are literal backslash-n, as in the Rust raw string). -/

/-- Source `prompts.rs` `build_system_prompt` (the build currently used by the
orchestrator; `build_system_prompt_old` is dead code and not embedded). -/
def build_system_prompt (context_len : Nat) : String :=
  "You are a LLM performing a text generation task for a chat completion. You fulfill your task using a python REPL. You can access, transform, and analyze your context interactively in the REPL environment. Your output will be appended to the context.\n\nYour context is a string with "
  ++ toString context_len ++
  " total characters.\nYour context_window size is 8000 total characters.\n\n## Using the REPL\n\nYou will only be able to see outputs from the python REPL environment.\nYou should use the query LLM function on variables you want to analyze.\nUse variables as buffers to build up your final answer.\n\nAn example strategy is to first look at the context at the beginning and at the end and figure out what to do, then execute it.\nYou are strongly encouraged to use sub-llms as much as possible.\n\n\nImportant Variables and Functions in the REPL:\n\n1. A \x27context\x27 variable that contains the context and prompt. You should examine the content of the \x27context\x27 variable to understand what you are working with. Make sure you look through it sufficiently. \n2. A function \x27print\x27 for viewing the output of your REPL code and continue your reasoning.\n3. A function \x27llm_query\x27 that allows you to prompt a LLM. You have to build the context and prompt for the LLM. It can not see your context. ALWAYS store results in a variable. example = llm_query(...)\n4. A function \x27llm_output\x27 that allows you to append to the context. You will be queried iteratively until you call llm_output.\n\nWhen you want to execute Python code in the REPL environment, wrap it in triple backticks with \x27repl\x27 language identifier.\n\nEXAMPLE 1 - Peeking at the context:\n```repl\ncontext_start = context[:500] # See first 500 chars\ncontext_end = context[:-500] # See last 500 chars\n\nprint(f\"CONTEXT START: {context_start}\\n\") \nprint(f\"CONTEXT END: {context_end}\\n\") \n```\n\nEXAMPLE 2 - Simple task execution:\nIf the context says \"generate fibonacci 1-10\", you would:\n```repl\nprint(context)  # First see what\x27s asked\n```\nNext iteration:\n```repl\nfib = [1, 1]\nfor _ in range(8): fib.append(fib[-1] + fib[-2])\nprint(fib)\n```\n\nEXAMPLE 3 - Using llm_query for prompting sub-llm:\n```repl\nchunk = context[:5000]\nanswer = llm_query(f\"Summarize the main points: {chunk}\")\nprint(answer)\n```\n\nEXAMPLE 4 - Prompt completion subquery \n```repl\nllm_joke = llm_query(f\"Please generate a joke about LLMs. Joke: \")\nprint(llm_joke)\n```\n\n## Task\n\nComplete the query in the context.\nAn example strategy is to first look at the context and figure out what to do, then execute it.\n\nIMPORTANT: Your task is to append. Last part of context very important!\n\nIMPORTANT: must print llm_query result\n\nIMPORTANT: When you are done, call llm_output(your_answer) with your final answer. You will be queried iteratively until you call llm_output.\n\nThink step by step carefully, plan, and execute this plan immediately in your response -- do not just say \"I will do this\" or \"I will do that\". Output to the REPL environment as much as possible. You got this."

/-- Source `prompts.rs` `build_initial_user_prompt`. -/
def build_initial_user_prompt : String :=
  "You have not interacted with the REPL environment yet. Start by examining the \x27context\x27 variable to understand your task. Your next action:"

/-- Source `prompts.rs` `build_continue_prompt`, the fixed text after the
iteration header.  The Rust `format!` literal uses backslash line
continuations (which elide the newline and the leading
indentation) on some lines and plain newlines (which keep both) on others;
the rendered text below reproduces this exactly, including the two
embedded `\n` plus eight spaces of kept indentation. -/
def continueTailText : String :=
  ". You are NOT done yet - keep working! MUST finish before last iteration.\n        Look at your variables with print() to see progress. If processing chunks, continue to next chunk. Reminder: MUST use llm_output(answer_variable_name) function when you have completed task. Do not use unless you have completed your task.\n        Reminder: llm_query can NOT see conversation - always pass context! Only use llm_output(var) when your task is COMPLETE. Your next action:"

/-- Source `prompts.rs` `build_continue_prompt`. -/
def build_continue_prompt (iteration max_iterations : Nat) : String :=
  "Iteration " ++ toString (iteration + 1) ++ "/" ++ toString max_iterations ++
    continueTailText

/-! Section: Orchestrator (src/rlm.rs) -/

/-- Source `rlm.rs` `truncate_after_first_repl_block`.  Note the source searches
for a ```` ```repl ```` fence anywhere in the text first and falls back to
a ```` ```python ```` fence only when no repl fence exists, and always
skips 8 characters past the found fence start before looking for the
closing `\n` + three backticks. -/
def truncate_after_first_repl_block (text : Str) : Str :=
  match (firstFind ("```repl\n".toList) text).or (firstFind ("```python\n".toList) text) with
  | none => text
  | some start =>
    let afterMarker := start + 8
    match firstFind ("\n```".toList) (text.drop afterMarker) with
    | none => text
    | some endOffset => text.take (afterMarker + endOffset + 4)

/-- How the configured API credential reaches the provider client. -/
inductive ApiKeySource
  | explicitKey (key : Str)
  | ollamaDefault
  | fromEnv
  deriving Repr, DecidableEq

/-- Source `rlm.rs` `create_client`, OpenAI arm (lines 98-109): explicit key, or
the literal `"ollama"` when only a base URL is configured, or the
environment default. -/
def openai_root_key_source (cfg : RlmConfig) : ApiKeySource :=
  match cfg.api_key with
  | some k => ApiKeySource.explicitKey k
  | none => if cfg.base_url.isSome then ApiKeySource.ollamaDefault else ApiKeySource.fromEnv

/-- Source `rlm.rs` `query_fn`, OpenAI arm (lines 220-228): the sub-call client
configuration, rebuilt inside the callback with the captured config. -/
def openai_sub_key_source (cfg : RlmConfig) : ApiKeySource :=
  match cfg.api_key with
  | some k => ApiKeySource.explicitKey k
  | none => if cfg.base_url.isSome then ApiKeySource.ollamaDefault else ApiKeySource.fromEnv

/-- Source `rlm.rs` `create_client`, Anthropic arm (lines 111-118). -/
def anthropic_root_key_source (cfg : RlmConfig) : ApiKeySource :=
  match cfg.api_key with
  | some k => ApiKeySource.explicitKey k
  | none => ApiKeySource.fromEnv

/-- Source `rlm.rs` `query_fn`, Anthropic arm (lines 269-273). -/
def anthropic_sub_key_source (cfg : RlmConfig) : ApiKeySource :=
  match cfg.api_key with
  | some k => ApiKeySource.explicitKey k
  | none => ApiKeySource.fromEnv

/-- The observable shape of an OpenAI chat-completion request as built by
`rlm.rs` (client configuration plus request builder fields). -/
structure OpenAIRequest where
  base_url : Option Str
  key : ApiKeySource
  model : Str
  messages : List Message
  temperature : ℚ
  max_tokens : Option Nat
  deriving Repr, DecidableEq

/-- The observable shape of an Anthropic message request as built by
`rlm.rs` (`MessageCreateBuilder` fields; `temperature = none` means the
builder never sets a temperature and the provider default applies). -/
structure AnthropicRequest where
  key : ApiKeySource
  model : Str
  max_tokens : Nat
  system : Option Str
  messages : List Message
  temperature : Option ℚ
  deriving Repr, DecidableEq

/-- A request to either provider. -/
inductive ProviderRequest
  | openai (r : OpenAIRequest)
  | anthropic (r : AnthropicRequest)
  deriving Repr, DecidableEq

/-- The message list a `ProviderRequest` carries. -/
def ProviderRequest.reqMessages : ProviderRequest → List Message
  | ProviderRequest.openai r => r.messages
  | ProviderRequest.anthropic r => r.messages

/-- The sampling temperature a `ProviderRequest` sets, if any (the OpenAI
builder always sets one). -/
def ProviderRequest.reqTemperature : ProviderRequest → Option ℚ
  | ProviderRequest.openai r => some r.temperature
  | ProviderRequest.anthropic r => r.temperature

/-- The model identifier a `ProviderRequest` names. -/
def ProviderRequest.reqModel : ProviderRequest → Str
  | ProviderRequest.openai r => r.model
  | ProviderRequest.anthropic r => r.model

/-- Source `rlm.rs` `call_openai` (lines 574-631): the request built for a root
LM call.  History messages are translated one-to-one preserving role and
content; temperature is always applied; `max_tokens` only when configured. -/
def call_openai_request (cfg : RlmConfig) (history : List Message) : OpenAIRequest :=
  { base_url := cfg.base_url
    key := openai_root_key_source cfg
    model := cfg.model
    messages := history
    temperature := cfg.temperature
    max_tokens := cfg.max_tokens }

/-- Source `rlm.rs` `call_anthropic` (lines 634-691): the request built for a
root LM call.  The first system message becomes the separate system field;
non-system messages are forwarded in order; `max_tokens` defaults to 4096;
the temperature is set only when strictly positive. -/
def call_anthropic_request (cfg : RlmConfig) (history : List Message) : AnthropicRequest :=
  { key := anthropic_root_key_source cfg
    model := cfg.model
    max_tokens := cfg.max_tokens.getD 4096
    system := (history.find? (fun m => m.role = Role.system)).map (fun m => m.content)
    messages := history.filter (fun m => ¬(m.role = Role.system))
    temperature := if 0 < cfg.temperature then some cfg.temperature else none }

/-- Source `rlm.rs` `call_llm`: the provider request a root call issues. -/
def root_llm_request (cfg : RlmConfig) (history : List Message) : ProviderRequest :=
  match cfg.backend with
  | Backend.openai => ProviderRequest.openai (call_openai_request cfg history)
  | Backend.anthropic => ProviderRequest.anthropic (call_anthropic_request cfg history)

/-- Source `rlm.rs` `query_fn` (lines 209-312): the provider request a sub-LM
(`llm_query`) invocation issues for the prompt string passed in.  The
OpenAI arm sends a single user message, the captured model, base URL, key
fallback and temperature, and no `max_tokens`; the Anthropic arm uses
`MessageCreateBuilder::new(model, 4096).user(prompt)` — a single user
message, `max_tokens` fixed at 4096, no system text and no temperature. -/
def sub_llm_request (cfg : RlmConfig) (prompt : Str) : ProviderRequest :=
  match cfg.backend with
  | Backend.openai => ProviderRequest.openai
      { base_url := cfg.base_url
        key := openai_sub_key_source cfg
        model := cfg.model
        messages := [Message.mkUser prompt]
        temperature := cfg.temperature
        max_tokens := none }
  | Backend.anthropic => ProviderRequest.anthropic
      { key := anthropic_sub_key_source cfg
        model := cfg.model
        max_tokens := 4096
        system := none
        messages := [Message.mkUser prompt]
        temperature := none }

/-- Oracle environment for one completion: the LM transport (total: every
call returns a reply and its usage), the interpreter (`src/env.rs`, absent
from the sources; only its interface appears in `rlm.rs`) as an abstract
state with a step function, the namespace string snapshot, and the
accumulated sub-call usage read out of the shared counter on return. -/
structure Env (σ : Type) where
  llm : List Message → Str × Usage
  execStep : σ → Str → ReplResult × σ
  getLocals : σ → List (Str × Str)
  subUsage : σ → Usage

/-- Source `rlm.rs` `execute_with_retry`, the fixed retry prompt. -/
def fixPromptText : String :=
  "Please fix the code and try again. Provide the corrected code in a ```repl``` block."

/-- Source `rlm.rs` `execute_with_retry`, the user message wrapping an execution
result into a ```` ```result ```` or ```` ```error ```` block. -/
def execResultMessage (result : ReplResult) : Str :=
  if result.success then
    if result.stdout = [] then ("```result\n(no output)\n```").toList
    else ("```result\n").toList ++ trimChars result.stdout ++ ("\n```").toList
  else ("```error\n").toList ++ result.error.getD (("Unknown error").toList) ++ ("\n```").toList

/-- Everything `execute_with_retry` returns or mutates: the code block, the
interpreter state, the message history and the accumulated usage. -/
structure RetryOut (σ : Type) where
  block : CodeBlock
  state : σ
  history : List Message
  usage : Usage

/-- Source `rlm.rs` `execute_with_retry` (lines 694-759), fuel-indexed: execute,
append the result message; stop on success or once `max_exec_retries`
retries were used; otherwise append the fix prompt, call the LM, append its
reply, and retry with the first code block of the reply (or give up when it
contains none).  Each pass uses one unit of fuel and increments the retry
count, so `maxRetries + 1` units of fuel make the fuel case unreachable. -/
def executeWithRetryAux {σ : Type} (env : Env σ) (maxRetries : Nat) :
    Nat → Nat → σ → Str → List Message → Usage → RetryOut σ
  | 0, rc, s, code, hist, usage => ⟨⟨code, none, rc⟩, s, hist, usage⟩
  | fuel + 1, rc, s, code, hist, usage =>
    let er := env.execStep s code
    let hist1 := hist ++ [Message.mkUser (execResultMessage er.1)]
    if er.1.success ∨ maxRetries ≤ rc then
      ⟨⟨code, some er.1, rc⟩, er.2, hist1, usage⟩
    else
      let hist2 := hist1 ++ [Message.mkUser fixPromptText.toList]
      let lr := env.llm hist2
      let hist3 := hist2 ++ [Message.mkAssistant lr.1]
      match (extract_code_blocks lr.1).head? with
      | some fixed =>
          executeWithRetryAux env maxRetries fuel (rc + 1) er.2 fixed hist3 (usage.addU lr.2)
      | none => ⟨⟨code, some er.1, rc + 1⟩, er.2, hist3, usage.addU lr.2⟩

/-- Source `rlm.rs` `execute_with_retry`: entry point, retry count starting at 0. -/
def execute_with_retry {σ : Type} (env : Env σ) (maxRetries : Nat) (s : σ)
    (code : Str) (hist : List Message) (usage : Usage) : RetryOut σ :=
  executeWithRetryAux env maxRetries (maxRetries + 1) 0 s code hist usage

/-- Source `rlm.rs` `completion_with_context`, lines 500-517: the terminal-answer
decision of one iteration.  Primary: the `llm_output` channel value of the
executed block; fallback: a `FINAL_ANSWER: ` stdout line; fallback: a
`FINAL(...)` pattern in the (truncated) response text, resolved against
the namespace snapshot. -/
def detect_final_answer (executed_blocks : List CodeBlock) (response_text : Str)
    (locals : List (Str × Str)) : Option Str :=
  let llmOutputAnswer :=
    (executed_blocks.filterMap (fun b => b.result)).findSome? (fun r => r.llm_output)
  let finalFromCode :=
    (executed_blocks.filterMap (fun b => b.result)).findSome?
      (fun r => extract_final_answer_from_stdout r.stdout)
  (llmOutputAnswer.or finalFromCode).orElse (fun _ => extract_answer response_text locals)

/-- The data one pass of the main loop produces. -/
structure IterStep (σ : Type) where
  response : Str
  blocks : List CodeBlock
  final : Option Str
  history : List Message
  usage : Usage
  state : σ

/-- One iteration of the main loop of `completion_with_context` (lines
374-538): call the LM, truncate the reply after its first fenced block,
append it as the assistant message, execute the first extracted code block
with retry (if any), and decide the terminal answer against the namespace
snapshot taken after execution. -/
def runIteration {σ : Type} (env : Env σ) (cfg : RlmConfig) (history : List Message)
    (usage : Usage) (s : σ) : IterStep σ :=
  let lr := env.llm history
  let usage1 := usage.addU lr.2
  let responseText := truncate_after_first_repl_block lr.1
  let hist1 := history ++ [Message.mkAssistant responseText]
  match (extract_code_blocks responseText).head? with
  | some code =>
    let out := execute_with_retry env cfg.max_exec_retries s code hist1 usage1
    { response := responseText
      blocks := [out.block]
      final := detect_final_answer [out.block] responseText (env.getLocals out.state)
      history := out.history
      usage := out.usage
      state := out.state }
  | none =>
    { response := responseText
      blocks := []
      final := detect_final_answer [] responseText (env.getLocals s)
      history := hist1
      usage := usage1
      state := s }

/-- Source `rlm.rs` `completion_with_context`, the `for iteration_num in
0..max_iterations` loop (lines 320-563), fuel-indexed by the remaining
iterations (`fuel + iterNum = max_iterations` at every call): record the
iteration; on a detected answer add the sub-call usage and return the
completion; otherwise push the continuation prompt and go on; when the
fuel — the remaining iteration budget — is exhausted, fail with
`MaxIterationsReached(max_iterations)`. -/
def loopAux {σ : Type} (env : Env σ) (cfg : RlmConfig) (prompt : Str) :
    Nat → Nat → List Message → List RlmIteration → Usage → σ →
      Except RlmError RlmCompletion
  | 0, _, _, _, _, _ => Except.error (RlmError.maxIterationsReached cfg.max_iterations)
  | fuel + 1, iterNum, history, iterations, usage, s =>
    let step := runIteration env cfg history usage s
    let iterations' := iterations ++
      [{ iteration := iterNum, response := step.response,
         code_blocks := step.blocks, final_answer := step.final }]
    match step.final with
    | some answer =>
      Except.ok ⟨prompt, answer, iterations', step.usage.addU (env.subUsage step.state)⟩
    | none =>
      let hist' := step.history ++
        [Message.mkUser (build_continue_prompt iterNum cfg.max_iterations).toList]
      loopAux env cfg prompt fuel (iterNum + 1) hist' iterations' step.usage step.state

/-- Source `rlm.rs` `completion_with_context` (lines 176-563): build the system
and initial user messages, create the interpreter with `context` bound
(the initial oracle state `s₀`), and run the loop. -/
def completion_with_context {σ : Type} (env : Env σ) (cfg : RlmConfig)
    (context_payload : Str) (s₀ : σ) : Except RlmError RlmCompletion :=
  let history := [Message.mkSystem (build_system_prompt context_payload.length).toList,
                  Message.mkUser build_initial_user_prompt.toList]
  loopAux env cfg context_payload cfg.max_iterations 0 history [] Usage.zero s₀

/-! Section: Claim-side predicates and instrumentation -/

/-- The identifier regex `[A-Za-z_][A-Za-z0-9_]*` named by claims C7/C10,
written with the core ASCII classifiers (`Char.isUpper` is exactly `A`-`Z`,
`Char.isLower` exactly `a`-`z`, `Char.isDigit` exactly `0`-`9`). -/
def matchesIdentRegex : Str → Bool
  | [] => false
  | c :: rest =>
    (c.isUpper || c.isLower || c = '_')
      && rest.all (fun d => d.isUpper || d.isLower || d.isDigit || d = '_')

/-- A character that is inert for the `FINAL(...)` scan: not a paren, not
a quote, not a backslash, and not whitespace. -/
def plainChar (c : Char) : Bool :=
  !(c ∈ ['(', ')', '"', '\'', '\\']) && !rustIsWhitespace c

/-- Instrumentation for counting interpreter executions: the same oracle
with a step counter threaded through the state, incremented exactly once
per `execStep` call. -/
def instrumentEnv {σ : Type} (env : Env σ) : Env (σ × Nat) :=
  { llm := env.llm
    execStep := fun p c => ((env.execStep p.1 c).1, ((env.execStep p.1 c).2, p.2 + 1))
    getLocals := fun p => env.getLocals p.1
    subUsage := fun p => env.subUsage p.1 }

/-! Section: Concrete fixtures used by witnesses and counterexamples -/

/-- An Anthropic-backend configuration with a strictly positive sampling
temperature (the case distinguishing root and sub-LM requests). -/
def cfgAnthropicEx : RlmConfig :=
  { model := ("claude").toList
    max_iterations := 20
    max_exec_retries := 2
    temperature := 1
    max_tokens := none
    verbose := false
    exec_log := false
    backend := Backend.anthropic
    base_url := none
    api_key := some (("k").toList) }

/-- A failing execution result used by the retry witness. -/
def failResEx : ReplResult :=
  { stdout := []
    stderr := []
    locals := []
    success := false
    error := some (("boom").toList)
    llm_output := none }

/-- An oracle whose interpreter always fails and whose LM always answers
with a fenced code block (used by the retry witness). -/
def envFailEx : Env Unit :=
  { llm := fun _ => ((("```repl\nfix\n```").toList), Usage.zero)
    execStep := fun s _ => (failResEx, s)
    getLocals := fun _ => []
    subUsage := fun _ => Usage.zero }

/-- A successful execution result that sets the `llm_output` channel and
also prints a `FINAL_ANSWER: ` line (used by the precedence witness). -/
def resChanEx : ReplResult :=
  { stdout := ("FINAL_ANSWER: st").toList
    stderr := []
    locals := []
    success := true
    error := none
    llm_output := some (("chan").toList) }

end RlmRs


namespace RlmRs

theorem mem_of_isPrefixOf {p l : Str} (h : p.isPrefixOf l = true) {a : Char}
    (ha : a ∈ p) : a ∈ l := by
  have hp := List.isPrefixOf_iff_prefix.mp h
  exact hp.sublist.subset ha

theorem mem_of_containsSub {p l : Str} (h : containsSub p l = true) {a : Char}
    (ha : a ∈ p) : a ∈ l := by
  induction l with
  | nil =>
    unfold containsSub at h
    exact absurd (mem_of_isPrefixOf h ha) (List.not_mem_nil a)
  | cons c rest ih =>
    unfold containsSub at h
    simp only [Bool.or_eq_true] at h
    rcases h with h1 | h2
    · exact mem_of_isPrefixOf h1 ha
    · exact List.mem_cons_of_mem c (ih h2)

theorem toLower_eq_space {c : Char} (h : Char.toLower c = ' ') : c = ' ' := by
  unfold Char.toLower at h
  by_cases hc : c.toNat ≥ 65 ∧ c.toNat ≤ 90
  · exfalso
    rw [if_pos hc] at h
    have hval : Nat.isValidChar (c.toNat + 32) := Or.inl (by omega)
    have htn : (Char.ofNat (c.toNat + 32)).toNat = c.toNat + 32 := by
      unfold Char.ofNat
      rw [dif_pos hval]
      rfl
    have h32 := congrArg Char.toNat h
    rw [htn] at h32
    have hsp : (' ').toNat = 32 := rfl
    rw [hsp] at h32
    omega
  · rwa [if_neg hc] at h

theorem space_not_mem_toLower {l : Str} (h : ' ' ∉ l) : ' ' ∉ toLowerList l := by
  intro hmem
  obtain ⟨c, hc, hcl⟩ := List.mem_map.mp hmem
  exact h (by rwa [toLower_eq_space hcl] at hc)

theorem not_isPrefixOf_of_no_space {p l : Str} (hsp : ' ' ∈ p) (h : ' ' ∉ l) :
    ¬(p.isPrefixOf (toLowerList l) = true) := by
  intro hpre
  exact space_not_mem_toLower h (mem_of_isPrefixOf hpre hsp)

theorem not_containsSub_of_no_space {p l : Str} (hsp : ' ' ∈ p) (h : ' ' ∉ l) :
    ¬(containsSub p (toLowerList l) = true) := by
  intro hcon
  exact space_not_mem_toLower h (mem_of_containsSub hcon hsp)

theorem looks_like_prose_of_no_space {l : Str} (h : ' ' ∉ l) :
    looks_like_prose l = false := by
  unfold looks_like_prose
  split
  · rfl
  · rw [Bool.or_eq_false_iff]
    constructor
    · rw [List.any_eq_false]
      intro p hp
      simp only [proseStartPatterns, List.mem_cons, List.not_mem_nil, or_false] at hp
      rcases hp with rfl | rfl | rfl | rfl | rfl | rfl <;>
        exact not_isPrefixOf_of_no_space (by decide) h
    · rw [List.any_eq_false]
      intro p hp
      simp only [proseStrongPatterns, List.mem_cons, List.not_mem_nil, or_false] at hp
      rcases hp with rfl | rfl | rfl | rfl <;>
        exact not_containsSub_of_no_space (by decide) h

end RlmRs

namespace RlmRs

theorem plainChar_spec {c : Char} (h : plainChar c = true) :
    c ≠ '(' ∧ c ≠ ')' ∧ c ≠ '"' ∧ c ≠ '\'' ∧ rustIsWhitespace c = false := by
  simp only [plainChar, Bool.and_eq_true, Bool.not_eq_true', decide_eq_false_iff_not,
    List.mem_cons, List.not_mem_nil, or_false] at h
  push_neg at h
  exact ⟨h.1.1, h.1.2.1, h.1.2.2.1, h.1.2.2.2.1, h.2⟩

theorem plainChar_of_alphanum {c : Char} (h : (c.isAlphanum || c = '_') = true) :
    plainChar c = true := by
  simp only [plainChar, Bool.and_eq_true, Bool.not_eq_true', decide_eq_false_iff_not]
  constructor
  · intro hmem
    revert h
    fin_cases hmem <;> decide
  · by_contra hws
    simp only [Bool.not_eq_false] at hws
    unfold rustIsWhitespace at hws
    revert h
    have hmem := of_decide_eq_true hws
    fin_cases hmem <;> decide

theorem no_space_of_plain {l : Str} (h : ∀ c ∈ l, plainChar c = true) : ' ' ∉ l := by
  intro hmem
  have := (plainChar_spec (h _ hmem)).2.2.2.2
  simp [rustIsWhitespace] at this

theorem dropWhile_eq_self_of_all {p : Char → Bool} {l : Str}
    (h : ∀ c ∈ l, p c = false) : l.dropWhile p = l := by
  cases l with
  | nil => rfl
  | cons c rest =>
    rw [List.dropWhile_cons, if_neg]
    simp [h c (List.mem_cons_self c rest)]

theorem trimChars_eq_self {l : Str} (h : ∀ c ∈ l, rustIsWhitespace c = false) :
    trimChars l = l := by
  unfold trimChars
  rw [dropWhile_eq_self_of_all h, dropWhile_eq_self_of_all, List.reverse_reverse]
  intro c hc
  exact h c (List.mem_reverse.mp hc)

theorem firstFind_of_isPrefixOf {p l : Str} (h : p.isPrefixOf l = true) :
    firstFind p l = some 0 := by
  cases l with
  | nil => unfold firstFind; rw [if_pos h]
  | cons c rest => unfold firstFind; rw [if_pos h]

end RlmRs

namespace RlmRs

theorem getLast?_or_shift (c : Char) (rest : Str) (prev : Option Char) :
    ((c :: rest).getLast?).or prev = (rest.getLast?).or (some c) := by
  induction rest generalizing c prev with
  | nil => rfl
  | cons d tail ih =>
    rw [List.getLast?_cons_cons]
    rw [ih d prev, ih d (some c)]

theorem scanClose_plain_append (emo : Bool) :
    ∀ (w : Str), (∀ c ∈ w, plainChar c = true) →
      ∀ (l : Str) (i : Nat) (prev : Option Char),
        scanClose emo (w ++ l) i 1 none prev
          = scanClose emo l (i + w.length) 1 none ((w.getLast?).or prev) := by
  intro w
  induction w with
  | nil => intro _ l i prev; simp [List.getLast?, Option.or]
  | cons c rest ih =>
    intro hw l i prev
    have hc := plainChar_spec (hw c (List.mem_cons_self c rest))
    rw [List.cons_append]
    simp only [scanClose]
    rw [if_neg (by tauto), if_neg hc.1, if_neg hc.2.1]
    rw [ih (fun d hd => hw d (List.mem_cons_of_mem c hd)) l (i + 1) (some c)]
    rw [getLast?_or_shift c rest prev]
    have h1 : i + 1 + rest.length = i + (c :: rest).length := by
      simp [List.length_cons]
      omega
    rw [h1]

theorem scanClose_close (emo : Bool) (rest : Str) (i : Nat) (prev : Option Char)
    (h : emo = false ∨ isEmoticonPrev prev = false) :
    scanClose emo (')' :: rest) i 1 none prev = some i := by
  simp only [scanClose]
  rw [if_neg (by decide), if_neg (by decide), if_pos trivial, if_pos trivial, if_neg]
  rintro ⟨he, hp⟩
  rcases h with h | h
  · rw [h] at he; exact Bool.false_ne_true he
  · rw [h] at hp; exact Bool.false_ne_true hp

theorem scanClose_skip_emoticon (rest : Str) (i : Nat) (prev : Option Char)
    (h : isEmoticonPrev prev = true) :
    scanClose true (')' :: rest) i 1 none prev
      = scanClose true rest (i + 1) 1 none (some ')') := by
  simp only [scanClose]
  rw [if_neg (by decide), if_neg (by decide), if_pos trivial, if_pos trivial,
    if_pos ⟨trivial, h⟩]

end RlmRs

namespace RlmRs

theorem extractFinalAux_first_hit (fuel : Nat) (rem : Str) (locals : List (Str × Str))
    (endIdx : Nat)
    (hend : scanClose true rem 0 1 none none = some endIdx
      ∨ (scanClose true rem 0 1 none none = none
          ∧ scanClose false rem 0 1 none none = some endIdx))
    (hprose : looks_like_prose (trimChars (rem.take endIdx)) = false) :
    extractFinalAux locals (fuel + 1) (("FINAL(").toList ++ rem) 0
      = (match (if is_identifier (trimChars (rem.take endIdx)) then
                  lookupLocal locals (trimChars (rem.take endIdx)) else none) with
         | some v => some v
         | none => some (unescape_string_literal (trimChars (rem.take endIdx)))) := by
  have hpre : (("FINAL(").toList).isPrefixOf (("FINAL(").toList ++ rem) = true :=
    List.isPrefixOf_iff_prefix.mpr (List.prefix_append _ _)
  have hff : firstFind (("FINAL(").toList) (("FINAL(").toList ++ rem) = some 0 :=
    firstFind_of_isPrefixOf hpre
  have hdrop : (("FINAL(").toList ++ rem).drop (0 + 0 + 6) = rem :=
    List.drop_left' (by rfl)
  simp only [extractFinalAux, List.drop_zero, hff, hdrop]
  rw [if_pos (by simp)]
  have harith : ∀ i : Nat, 0 + 0 + 6 + i - (0 + 0 + 6) = i := by omega
  rcases hend with h1 | ⟨h1, h2⟩
  · simp only [h1, harith, hprose, Bool.false_eq_true, if_false]
  · simp only [h1, h2, Option.map_some', harith, hprose, Bool.false_eq_true, if_false]

end RlmRs

namespace RlmRs

theorem identRegex_parts {s : Str} (h : matchesIdentRegex s = true) :
    s ≠ [] ∧ (∀ c ∈ s, (c.isAlphanum || c = '_') = true) ∧ is_identifier s = true := by
  cases s with
  | nil => exact absurd h (by decide)
  | cons c rest =>
    unfold matchesIdentRegex at h
    rw [Bool.and_eq_true, List.all_eq_true] at h
    obtain ⟨hc, hrest⟩ := h
    have hchar : ∀ d : Char, (d.isUpper || d.isLower || d.isDigit || decide (d = '_')) = true →
        (d.isAlphanum || decide (d = '_')) = true := by
      intro d hd
      simp only [Char.isAlphanum, Char.isAlpha, Bool.or_eq_true] at hd ⊢
      tauto
    have hc' : (c.isAlphanum || decide (c = '_')) = true := by
      apply hchar
      simp only [Bool.or_eq_true] at hc ⊢
      tauto
    refine ⟨by simp, ?_, ?_⟩
    · intro d hd
      rcases List.mem_cons.mp hd with rfl | hd'
      · exact hc'
      · exact hchar d (by simpa using hrest d hd')
    · unfold is_identifier
      rw [Bool.and_eq_true, List.all_eq_true]
      constructor
      · rw [decide_eq_true_eq]
        simp only [Char.isAlpha, Bool.or_eq_true, decide_eq_true_eq] at hc ⊢
        exact hc
      · intro d hd
        exact hchar d (by simpa using hrest d hd)

end RlmRs

namespace RlmRs

theorem ident_scan_results {id : Str} (a : Char)
    (hplain : ∀ c ∈ id, plainChar c = true) (ha : id.getLast? = some a) :
    scanClose true (id ++ [')']) 0 1 none none = some id.length
      ∨ (scanClose true (id ++ [')']) 0 1 none none = none
          ∧ scanClose false (id ++ [')']) 0 1 none none = some id.length) := by
  have h1 : scanClose true (id ++ [')']) 0 1 none none
      = scanClose true [')'] id.length 1 none (some a) := by
    rw [scanClose_plain_append true id hplain [')'] 0 none, ha]
    simp [Option.or]
  have h2 : scanClose false (id ++ [')']) 0 1 none none
      = scanClose false [')'] id.length 1 none (some a) := by
    rw [scanClose_plain_append false id hplain [')'] 0 none, ha]
    simp [Option.or]
  by_cases hemo : emoticonChar a = true
  · right
    constructor
    · rw [h1, scanClose_skip_emoticon [] id.length (some a) hemo]
      simp [scanClose]
    · rw [h2, scanClose_close false [] id.length (some a) (Or.inl rfl)]
  · left
    rw [h1, scanClose_close true [] id.length (some a)
      (Or.inr (by simpa [isEmoticonPrev] using hemo))]

/-- C7: for every identifier `id` (per the regex `[A-Za-z_][A-Za-z0-9_]*`)
bound in the namespace string snapshot with value `v`, parsing the text
`FINAL(id)` with that snapshot substitutes the bound value. -/
theorem c7_final_resolves_bound_identifier (id : Str) (locals : List (Str × Str)) (v : Str)
    (hid : matchesIdentRegex id = true)
    (hv : lookupLocal locals id = some v) :
    extract_final_answer_raw (("FINAL(").toList ++ id ++ [')']) locals = some v := by
  obtain ⟨hne, hall, hident⟩ := identRegex_parts hid
  have hplain : ∀ c ∈ id, plainChar c = true := fun c hc => plainChar_of_alphanum (hall c hc)
  obtain ⟨a, ha⟩ : ∃ a, id.getLast? = some a :=
    ⟨id.getLast hne, List.getLast?_eq_getLast id hne⟩
  have hcontent : trimChars ((id ++ [')']).take id.length) = id := by
    rw [List.take_left' rfl]
    exact trimChars_eq_self (fun c hc => (plainChar_spec (hplain c hc)).2.2.2.2)
  have hprose : looks_like_prose (trimChars ((id ++ [')']).take id.length)) = false := by
    rw [hcontent]
    exact looks_like_prose_of_no_space (no_space_of_plain hplain)
  rw [extract_final_answer_raw, List.append_assoc]
  rw [extractFinalAux_first_hit _ (id ++ [')']) locals id.length
    (ident_scan_results a hplain ha) hprose]
  simp only [hcontent, hident, if_true, hv]

end RlmRs

namespace RlmRs

theorem unescape_ident {id : Str} (hall : ∀ c ∈ id, (c.isAlphanum || c = '_') = true) :
    unescape_string_literal id = id := by
  unfold unescape_string_literal
  have htrim : trimChars id = id :=
    trimChars_eq_self (fun c hc =>
      (plainChar_spec (plainChar_of_alphanum (hall c hc))).2.2.2.2)
  rw [htrim]
  cases id with
  | nil => rw [if_neg]; rintro ⟨hlen, _⟩; simp at hlen
  | cons c rest =>
    rw [if_neg]
    rintro ⟨hlen, h | h⟩ <;>
      [skip; skip] <;>
      · obtain ⟨h1, _⟩ := h
        simp only [List.head?_cons, Option.some_inj] at h1
        have := hall c (List.mem_cons_self c rest)
        rw [h1] at this
        exact absurd this (by decide)

/-- C10: an accepted `FINAL(...)` whose content is an identifier that is
not bound in the namespace snapshot yields the identifier text itself. -/
theorem c10_final_unbound_identifier_returns_name (id : Str) (locals : List (Str × Str))
    (hid : matchesIdentRegex id = true)
    (hv : lookupLocal locals id = none) :
    extract_final_answer_raw (("FINAL(").toList ++ id ++ [')']) locals = some id := by
  obtain ⟨hne, hall, hident⟩ := identRegex_parts hid
  have hplain : ∀ c ∈ id, plainChar c = true := fun c hc => plainChar_of_alphanum (hall c hc)
  obtain ⟨a, ha⟩ : ∃ a, id.getLast? = some a :=
    ⟨id.getLast hne, List.getLast?_eq_getLast id hne⟩
  have hcontent : trimChars ((id ++ [')']).take id.length) = id := by
    rw [List.take_left' rfl]
    exact trimChars_eq_self (fun c hc => (plainChar_spec (hplain c hc)).2.2.2.2)
  have hprose : looks_like_prose (trimChars ((id ++ [')']).take id.length)) = false := by
    rw [hcontent]
    exact looks_like_prose_of_no_space (no_space_of_plain hplain)
  rw [extract_final_answer_raw, List.append_assoc]
  rw [extractFinalAux_first_hit _ (id ++ [')']) locals id.length
    (ident_scan_results a hplain ha) hprose]
  simp only [hcontent, hident, if_true, hv]
  rw [unescape_ident hall]

end RlmRs

namespace RlmRs

theorem unescape_eq_self_of_head {l : Str} (hws : ∀ c ∈ l, rustIsWhitespace c = false)
    (hhead : ∀ c, l.head? = some c → c ≠ '"' ∧ c ≠ '\'') :
    unescape_string_literal l = l := by
  unfold unescape_string_literal
  rw [trimChars_eq_self hws]
  cases l with
  | nil => rw [if_neg]; rintro ⟨hlen, _⟩; simp at hlen
  | cons c rest =>
    rw [if_neg]
    rintro ⟨hlen, h | h⟩
    · obtain ⟨h1, _⟩ := h
      simp only [List.head?_cons, Option.some_inj] at h1
      exact (hhead c rfl).1 h1
    · obtain ⟨h1, _⟩ := h
      simp only [List.head?_cons, Option.some_inj] at h1
      exact (hhead c rfl).2 h1

/-- C8 (amended): a closing paren that would end the match is skipped when
an emoticon character precedes it, the scan then continuing at depth one;
and when the scan finds no close at all this way, the match is retried
with emoticon suppression disabled, so an answer ending in an emoticon
still closes at its real final paren. -/
theorem c8_emoticon_handling (w u : Str) (cw cu : Char)
    (hw : ∀ c ∈ w, plainChar c = true) (hu : ∀ c ∈ u, plainChar c = true)
    (hwl : w.getLast? = some cw) (hcw : emoticonChar cw = true)
    (hul : u.getLast? = some cu) (hcu : emoticonChar cu = false) :
    extract_final_answer_raw (("FINAL(").toList ++ w ++ [')']) [] = some w
    ∧ extract_final_answer_raw
        (("FINAL(").toList ++ w ++ [')'] ++ u ++ [')']) []
        = some (w ++ [')'] ++ u) := by
  have hwne : w ≠ [] := by intro h; rw [h] at hwl; simp at hwl
  have hwws : ∀ c ∈ w, rustIsWhitespace c = false :=
    fun c hc => (plainChar_spec (hw c hc)).2.2.2.2
  constructor
  · -- first conjunct: only the emoticon close exists; the retry closes it
    have hcontent : trimChars ((w ++ [')']).take w.length) = w := by
      rw [List.take_left' rfl]
      exact trimChars_eq_self hwws
    have hprose : looks_like_prose (trimChars ((w ++ [')']).take w.length)) = false := by
      rw [hcontent]
      exact looks_like_prose_of_no_space (no_space_of_plain hw)
    rw [extract_final_answer_raw, List.append_assoc]
    rw [extractFinalAux_first_hit _ (w ++ [')']) [] w.length
      (ident_scan_results cw hw hwl) hprose]
    rw [hcontent]
    have hnone : (if is_identifier w = true then lookupLocal [] w else none)
        = (none : Option Str) := by
      split <;> rfl
    rw [hnone]
    rw [unescape_eq_self_of_head hwws]
    intro c hc
    cases w with
    | nil => simp at hc
    | cons c0 rest =>
      simp only [List.head?_cons, Option.some_inj] at hc
      have := plainChar_spec (hw c0 (List.mem_cons_self c0 rest))
      rw [hc] at this
      exact ⟨this.2.2.1, this.2.2.2.1⟩
  · -- second conjunct: the emoticon close is skipped and the scan
    -- continues to the real close after `u`
    have hassoc : ("FINAL(").toList ++ w ++ [')'] ++ u ++ [')']
        = ("FINAL(").toList ++ (w ++ (')' :: (u ++ [')']))) := by
      simp [List.append_assoc]
    have hscan : scanClose true (w ++ (')' :: (u ++ [')']))) 0 1 none none
        = some (w.length + 1 + u.length) := by
      rw [scanClose_plain_append true w hw _ 0 none, hwl]
      rw [show ((some cw).or none) = some cw from rfl]
      rw [scanClose_skip_emoticon _ _ _ (show isEmoticonPrev (some cw) = true from hcw)]
      rw [scanClose_plain_append true u hu [')'] (0 + w.length + 1) (some ')'), hul]
      rw [show ((some cu).or (some ')')) = some cu from rfl]
      rw [scanClose_close true [] _ (some cu)
        (Or.inr (by simpa [isEmoticonPrev] using hcu))]
      congr 1
      omega
    have hcws : ∀ c ∈ w ++ [')'] ++ u, rustIsWhitespace c = false := by
      intro c hc
      simp only [List.append_assoc, List.mem_append, List.mem_cons, List.not_mem_nil,
        or_false, List.mem_singleton] at hc
      rcases hc with hc | hc | hc
      · exact hwws c hc
      · rw [hc]; rfl
      · exact (plainChar_spec (hu c hc)).2.2.2.2
    have hsplit : w ++ (')' :: (u ++ [')'])) = (w ++ [')'] ++ u) ++ [')'] := by
      simp [List.append_assoc]
    have hlen2 : (w ++ [')'] ++ u).length = w.length + 1 + u.length := by
      simp [List.length_append]
      omega
    have hcontent : trimChars ((w ++ (')' :: (u ++ [')']))).take (w.length + 1 + u.length))
        = w ++ [')'] ++ u := by
      rw [hsplit, List.take_left' hlen2]
      exact trimChars_eq_self hcws
    have hnospace : ' ' ∉ w ++ [')'] ++ u := by
      intro hc
      have := hcws ' ' hc
      simp [rustIsWhitespace] at this
    have hprose : looks_like_prose
        (trimChars ((w ++ (')' :: (u ++ [')']))).take (w.length + 1 + u.length))) = false := by
      rw [hcontent]
      exact looks_like_prose_of_no_space hnospace
    rw [hassoc, extract_final_answer_raw]
    rw [extractFinalAux_first_hit _ (w ++ (')' :: (u ++ [')']))) []
      (w.length + 1 + u.length) (Or.inl hscan) hprose]
    rw [hcontent]
    have hnone : (if is_identifier (w ++ [')'] ++ u) = true then
        lookupLocal [] (w ++ [')'] ++ u) else none) = (none : Option Str) := by
      split <;> rfl
    rw [hnone]
    rw [unescape_eq_self_of_head hcws]
    intro c hc
    cases w with
    | nil => exact absurd rfl hwne
    | cons c0 rest =>
      simp only [List.append_assoc, List.cons_append, List.head?_cons,
        Option.some_inj] at hc
      have := plainChar_spec (hw c0 (List.mem_cons_self c0 rest))
      rw [hc] at this
      exact ⟨this.2.2.1, this.2.2.2.1⟩

end RlmRs

namespace RlmRs

/-- C8 counterexample: in `FINAL((:) q) y)` the `)` after `:` sits at
nesting depth 2; the code counts it (no emoticon treatment except when
depth would reach zero), closing after `q`, while the any-depth skipping of the claim would close after `y`. -/
theorem c8_counterexample :
    extract_final_answer (("FINAL((:) q) y)").toList) = some (("(:) q").toList)
    ∧ extract_final_answer (("FINAL((:) q) y)").toList) ≠ some (("(:) q) y").toList) := by
  constructor
  · decide
  · decide

theorem c8_witness :
    extract_final_answer_raw (("FINAL(").toList ++ ("xD").toList ++ [')']) [] = some (("xD").toList)
    ∧ extract_final_answer_raw
        (("FINAL(").toList ++ ("xD").toList ++ [')'] ++ ("ok").toList ++ [')']) []
        = some ((("xD").toList) ++ [')'] ++ ("ok").toList) :=
  c8_emoticon_handling (("xD").toList) (("ok").toList) 'D' 'k'
    (by decide) (by decide) (by decide) (by decide) (by decide) (by decide)

theorem c7_witness :
    extract_final_answer_raw (("FINAL(").toList ++ ("x").toList ++ [')'])
      [((("x").toList), (("42").toList))] = some (("42").toList) :=
  c7_final_resolves_bound_identifier (("x").toList) [((("x").toList), (("42").toList))]
    (("42").toList) (by decide) (by decide)

theorem c10_witness :
    extract_final_answer_raw (("FINAL(").toList ++ ("missing").toList ++ [')']) []
      = some (("missing").toList) :=
  c10_final_unbound_identifier_returns_name (("missing").toList) [] (by decide) (by decide)

end RlmRs

namespace RlmRs

/-- C3 (amended): the truncation searches for a repl fence anywhere in
the text first and falls back to a python fence only when no repl fence
exists; it keeps everything up to and including the first `\n` + three
backticks after the fence start (the uniform 8-character skip), and leaves
a response with no fence, or with a fence but no close after it,
unchanged. -/
theorem c3_truncation_behaviour :
    (∀ s t : Str,
        firstFind (("\n```").toList) ((s ++ ("\n```").toList) ++ t) = some s.length →
        truncate_after_first_repl_block ((("```repl\n").toList ++ s ++ ("\n```").toList) ++ t)
          = ("```repl\n").toList ++ s ++ ("\n```").toList)
    ∧ (∀ s t : Str,
        firstFind (("```repl\n").toList)
            (("```python\n").toList ++ s ++ ("\n```").toList ++ t) = none →
        firstFind (("\n```").toList) ('n' :: '\n' :: (s ++ (("\n```").toList ++ t)))
            = some (s.length + 2) →
        truncate_after_first_repl_block
            (("```python\n").toList ++ s ++ ("\n```").toList ++ t)
          = ("```python\n").toList ++ s ++ ("\n```").toList)
    ∧ (∀ (text : Str) (start : Nat),
        ((firstFind (("```repl\n").toList) text).or
            (firstFind (("```python\n").toList) text)) = some start →
        firstFind (("\n```").toList) (text.drop (start + 8)) = none →
        truncate_after_first_repl_block text = text)
    ∧ (∀ text : Str, firstFind (("```repl\n").toList) text = none →
        firstFind (("```python\n").toList) text = none →
        truncate_after_first_repl_block text = text) := by
  refine ⟨?_, ?_, ?_, ?_⟩
  · intro s t h
    have hassoc : (("```repl\n").toList ++ s ++ ("\n```").toList) ++ t
        = ("```repl\n").toList ++ ((s ++ ("\n```").toList) ++ t) := by
      simp [List.append_assoc]
    have hpre : (("```repl\n").toList).isPrefixOf
        (("```repl\n").toList ++ ((s ++ ("\n```").toList) ++ t)) = true :=
      List.isPrefixOf_iff_prefix.mpr (List.prefix_append _ _)
    have hdrop : (("```repl\n").toList ++ ((s ++ ("\n```").toList) ++ t)).drop (0 + 8)
        = (s ++ ("\n```").toList) ++ t := List.drop_left' (by rfl)
    unfold truncate_after_first_repl_block
    rw [hassoc, firstFind_of_isPrefixOf hpre, Option.or_some]
    simp only [hdrop, h]
    have htake : 0 + 8 + s.length + 4
        = (("```repl\n").toList).length + (s.length + 4) := by
      simp
      omega
    rw [htake, List.take_append]
    have htake2 : s.length + 4 = (s ++ ("\n```").toList).length := by
      simp
    rw [htake2, List.take_left]
    simp [List.append_assoc]
  · intro s t hrepl hclose
    have hassoc : ("```python\n").toList ++ s ++ ("\n```").toList ++ t
        = ("```python\n").toList ++ (s ++ (("\n```").toList ++ t)) := by
      simp [List.append_assoc]
    have hpy : firstFind (("```python\n").toList)
        (("```python\n").toList ++ (s ++ (("\n```").toList ++ t))) = some 0 :=
      firstFind_of_isPrefixOf
        ( List.isPrefixOf_iff_prefix.mpr (List.prefix_append _ _))
    rw [hassoc] at hrepl ⊢
    unfold truncate_after_first_repl_block
    rw [hrepl, hpy, Option.none_or]
    have hdrop : (("```python\n").toList ++ (s ++ (("\n```").toList ++ t))).drop (0 + 8)
        = 'n' :: '\n' :: (s ++ (("\n```").toList ++ t)) := by
      show (("```pytho").toList
          ++ ('n' :: '\n' :: (s ++ (("\n```").toList ++ t)))).drop (0 + 8) = _
      exact List.drop_left' (by rfl)
    simp only [hdrop, hclose]
    have htake : 0 + 8 + (s.length + 2) + 4
        = (("```python\n").toList).length + (s.length + 4) := by
      simp
      omega
    rw [htake, List.take_append]
    have htake2 : s.length + 4 = (s ++ ("\n```").toList).length := by
      simp
    rw [htake2, ← List.append_assoc s (("\n```").toList) t, List.take_left]
    simp [List.append_assoc]
  · intro text start h1 h2
    unfold truncate_after_first_repl_block
    rw [h1]
    simp only [h2]
  · intro text h1 h2
    unfold truncate_after_first_repl_block
    rw [h1, h2]
    rfl

/-- C3 counterexample: when a python block precedes a repl block, the code
keeps everything through the close of the *repl* block (the repl fence is
searched for first anywhere in the text), not the close of the earliest block. -/
theorem c3_counterexample :
    truncate_after_first_repl_block (("```python\na\n```\nmid\n```repl\nr\n```\ntail").toList)
      = ("```python\na\n```\nmid\n```repl\nr\n```").toList
    ∧ truncate_after_first_repl_block (("```python\na\n```\nmid\n```repl\nr\n```\ntail").toList)
      ≠ ("```python\na\n```").toList := by
  constructor
  · decide
  · decide

theorem c3_witness :
    truncate_after_first_repl_block ((("```repl\n").toList ++ ("code").toList
        ++ ("\n```").toList) ++ ("junk").toList)
      = ("```repl\n").toList ++ ("code").toList ++ ("\n```").toList
    ∧ truncate_after_first_repl_block
        (("```python\n").toList ++ ("py").toList ++ ("\n```").toList ++ ("tail").toList)
      = ("```python\n").toList ++ ("py").toList ++ ("\n```").toList
    ∧ truncate_after_first_repl_block (("```repl\nnoclose").toList)
      = ("```repl\nnoclose").toList
    ∧ truncate_after_first_repl_block (("no fences here").toList)
      = ("no fences here").toList :=
  ⟨c3_truncation_behaviour.1 (("code").toList) (("junk").toList) (by decide),
   c3_truncation_behaviour.2.1 (("py").toList) (("tail").toList) (by decide) (by decide),
   c3_truncation_behaviour.2.2.1 (("```repl\nnoclose").toList) 0 (by decide) (by decide),
   c3_truncation_behaviour.2.2.2 (("no fences here").toList) (by decide) (by decide)⟩

end RlmRs

namespace RlmRs

theorem findOpenFence_some_length :
    ∀ {l rest : Str}, findOpenFence l = some rest → rest.length + 8 ≤ l.length := by
  intro l
  induction l with
  | nil => intro rest h; simp [findOpenFence] at h
  | cons c tl ih =>
    intro rest h
    unfold findOpenFence at h
    split at h
    · rename_i hcond
      have hlen := ( List.isPrefixOf_iff_prefix.mp hcond).length_le
      simp only [Option.some_inj] at h
      rw [← h, List.length_drop]
      simp at hlen ⊢
      omega
    · split at h
      · rename_i hcond
        have hlen := ( List.isPrefixOf_iff_prefix.mp hcond).length_le
        simp only [Option.some_inj] at h
        rw [← h, List.length_drop]
        simp at hlen ⊢
        omega
      · have := ih h
        simp [List.length_cons]
        omega

theorem splitAtTicks_eq :
    ∀ {l : Str} {a b : Str}, splitAtTicks l = some (a, b) →
      l = a ++ ("```").toList ++ b := by
  intro l
  induction l with
  | nil => intro a b h; simp [splitAtTicks] at h
  | cons c tl ih =>
    intro a b h
    unfold splitAtTicks at h
    split at h
    · rename_i hcond
      obtain ⟨t, ht⟩ := List.isPrefixOf_iff_prefix.mp hcond
      simp only [Option.some_inj, Prod.mk.injEq] at h
      obtain ⟨ha, hb⟩ := h
      rw [← ha, ← hb, List.nil_append]
      conv_lhs => rw [← ht]
      congr 1
      rw [← ht, List.drop_left' (by rfl)]
    · simp only [Option.map_eq_some'] at h
      obtain ⟨⟨a', b'⟩, hsp, heq⟩ := h
      simp only [Prod.mk.injEq] at heq
      obtain ⟨ha, hb⟩ := heq
      rw [← ha, ← hb]
      rw [List.cons_append, List.cons_append]
      rw [← ih hsp]

theorem ecbAux_fuel_eq :
    ∀ (f₁ : Nat) {f₂ : Nat} {l : Str}, l.length < f₁ → l.length < f₂ →
      extractCodeBlocksAux f₁ l = extractCodeBlocksAux f₂ l := by
  intro f₁
  induction f₁ with
  | zero => intro f₂ l h1 h2; omega
  | succ n ih =>
    intro f₂ l h1 h2
    cases f₂ with
    | zero => omega
    | succ m =>
      cases hopen : findOpenFence l with
      | none => simp only [extractCodeBlocksAux, hopen]
      | some rest =>
        cases hsplit : splitAtTicks rest with
        | none => simp only [extractCodeBlocksAux, hopen, hsplit]
        | some p =>
          obtain ⟨inner, after⟩ := p
          simp only [extractCodeBlocksAux, hopen, hsplit]
          have hlen1 := findOpenFence_some_length hopen
          have hr := splitAtTicks_eq hsplit
          have hlen2 : after.length < rest.length + 1 := by
            rw [hr]
            simp [List.length_append]
            omega
          have hafter : after.length < l.length := by omega
          congr 1
          exact ih (by omega) (by omega)

end RlmRs

namespace RlmRs

theorem findOpenFence_repl (x : Str) :
    findOpenFence (("```repl\n").toList ++ x) = some x := by
  show findOpenFence ('`' :: (("``repl\n").toList ++ x)) = some x
  unfold findOpenFence
  rw [if_pos]
  · simp
  · exact List.isPrefixOf_iff_prefix.mpr (List.prefix_append _ _)

theorem findOpenFence_python (x : Str) :
    findOpenFence (("```python\n").toList ++ x) = some x := by
  show findOpenFence ('`' :: (("``python\n").toList ++ x)) = some x
  unfold findOpenFence
  rw [if_neg, if_pos]
  · simp
  · exact List.isPrefixOf_iff_prefix.mpr (List.prefix_append _ _)
  · show ¬((("```repl\n").toList).isPrefixOf ('`' :: (("``python\n").toList ++ x)) = true)
    show ¬((['`', '`', '`', 'r', 'e', 'p', 'l', '\n'] : Str).isPrefixOf
      ('`' :: (['`', '`', 'p', 'y', 't', 'h', 'o', 'n', '\n'] ++ x)) = true)
    simp [List.isPrefixOf]

theorem splitAtTicks_append (inner : Str) (h : ∀ c ∈ inner, c ≠ '`') (post : Str) :
    splitAtTicks (inner ++ ("```").toList ++ post) = some (inner, post) := by
  induction inner with
  | nil =>
    show splitAtTicks ('`' :: (("``").toList ++ post)) = some ([], post)
    unfold splitAtTicks
    rw [if_pos]
    · simp
    · exact List.isPrefixOf_iff_prefix.mpr (List.prefix_append _ _)
  | cons c rest ih =>
    rw [List.cons_append, List.cons_append]
    unfold splitAtTicks
    rw [if_neg]
    · rw [ih (fun d hd => h d (List.mem_cons_of_mem c hd))]
      rfl
    · intro hcon
      obtain ⟨t, ht⟩ := List.isPrefixOf_iff_prefix.mp hcon
      have hc := h c (List.mem_cons_self c rest)
      apply hc
      have := congrArg (fun l => l.head?) ht
      simpa using this.symm

end RlmRs

namespace RlmRs

/-- C4 (amended): a fenced `repl`/`python` block closes at the next
occurrence of three backticks anywhere after the opening fence (not only
at a line consisting of three backticks); scanning continues after the
close, so blocks are returned in order of appearance. -/
theorem c4_block_extraction (inner post : Str) (h : ∀ c ∈ inner, c ≠ '`') :
    extract_code_blocks (("```repl\n").toList ++ inner ++ ("```").toList ++ post)
        = inner :: extract_code_blocks post
    ∧ extract_code_blocks (("```python\n").toList ++ inner ++ ("```").toList ++ post)
        = inner :: extract_code_blocks post := by
  have hsplit := splitAtTicks_append inner h post
  constructor
  · have hassoc : ("```repl\n").toList ++ inner ++ ("```").toList ++ post
        = ("```repl\n").toList ++ (inner ++ ("```").toList ++ post) := by
      simp [List.append_assoc]
    rw [extract_code_blocks, hassoc]
    have hlen : (("```repl\n").toList ++ (inner ++ ("```").toList ++ post)).length
        = inner.length + post.length + 11 := by
      simp [List.length_append]
      omega
    rw [hlen]
    show extractCodeBlocksAux (inner.length + post.length + 11 + 1) _ = _
    simp only [extractCodeBlocksAux, findOpenFence_repl, hsplit]
    congr 1
    rw [extract_code_blocks]
    exact ecbAux_fuel_eq (inner.length + post.length + 11) (by omega) (by omega)
  · have hassoc : ("```python\n").toList ++ inner ++ ("```").toList ++ post
        = ("```python\n").toList ++ (inner ++ ("```").toList ++ post) := by
      simp [List.append_assoc]
    rw [extract_code_blocks, hassoc]
    have hlen : (("```python\n").toList ++ (inner ++ ("```").toList ++ post)).length
        = inner.length + post.length + 13 := by
      simp [List.length_append]
      omega
    rw [hlen]
    show extractCodeBlocksAux (inner.length + post.length + 13 + 1) _ = _
    simp only [extractCodeBlocksAux, findOpenFence_python, hsplit]
    congr 1
    rw [extract_code_blocks]
    exact ecbAux_fuel_eq (inner.length + post.length + 13) (by omega) (by omega)

/-- C4 counterexample: the input has no line consisting solely of three
backticks, so under the claim no block closes; the code still returns the
block, closed mid-line. -/
theorem c4_counterexample :
    extract_code_blocks (("```repl\nx``` y").toList) = [("x").toList]
    ∧ (rustLines (("```repl\nx``` y").toList)).all
        (fun line => decide (line ≠ ("```").toList)) = true := by
  constructor
  · decide
  · decide

theorem c4_witness :
    extract_code_blocks (("```repl\n").toList ++ ("x").toList ++ ("```").toList
        ++ ("\n```python\ny\n```").toList)
      = ("x").toList :: extract_code_blocks (("\n```python\ny\n```").toList) :=
  (c4_block_extraction (("x").toList) (("\n```python\ny\n```").toList) (by decide)).1

end RlmRs

namespace RlmRs

theorem strToList_append (s t : String) : (s ++ t).toList = s.toList ++ t.toList := by
  simp [String.toList]

set_option maxRecDepth 4096 in
/-- C9 (amended): the continuation prompt is parameterized by the
iteration index and the max iterations — it opens with
`Iteration (i+1)/max. ` — but its wording after that header is one fixed
text, identical for every iteration index and bound (no urgency band). -/
theorem c9_continue_prompt_fixed_wording (i m j n : Nat) :
    (∃ rest : Str, (build_continue_prompt i m).toList
        = ("Iteration " ++ toString (i + 1) ++ "/" ++ toString m ++ ". ").toList ++ rest)
    ∧ ((build_continue_prompt i m).toList).drop
          (("Iteration " ++ toString (i + 1) ++ "/" ++ toString m).length)
        = ((build_continue_prompt j n).toList).drop
          (("Iteration " ++ toString (j + 1) ++ "/" ++ toString n).length) := by
  have hsplit : continueTailText.toList
      = ((". ").toList) ++ ((continueTailText.drop 2).toList) := by decide
  have hbi : (build_continue_prompt i m).toList
      = ("Iteration " ++ toString (i + 1) ++ "/" ++ toString m).toList
          ++ continueTailText.toList :=
    strToList_append ("Iteration " ++ toString (i + 1) ++ "/" ++ toString m) continueTailText
  have hbj : (build_continue_prompt j n).toList
      = ("Iteration " ++ toString (j + 1) ++ "/" ++ toString n).toList
          ++ continueTailText.toList :=
    strToList_append ("Iteration " ++ toString (j + 1) ++ "/" ++ toString n) continueTailText
  constructor
  · refine ⟨(continueTailText.drop 2).toList, ?_⟩
    rw [hbi, hsplit]
    rw [strToList_append ("Iteration " ++ toString (i + 1) ++ "/" ++ toString m) ". "]
    rw [List.append_assoc]
  · rw [hbi, hbj]
    rw [ List.drop_left'
      (show (("Iteration " ++ toString (i + 1) ++ "/" ++ toString m).toList).length
        = ("Iteration " ++ toString (i + 1) ++ "/" ++ toString m).length from rfl)]
    rw [ List.drop_left'
      (show (("Iteration " ++ toString (j + 1) ++ "/" ++ toString n).toList).length
        = ("Iteration " ++ toString (j + 1) ++ "/" ++ toString n).length from rfl)]

set_option maxRecDepth 8192 in
/-- C9 counterexample: at `max_iterations = 20` the prompt of the last
iteration and of an early iteration differ only in the interpolated
numerals — the wording carries no urgency band, and no form of "urgent"
or "make progress" appears in the text of the final iterations. -/
theorem c9_counterexample :
    ((build_continue_prompt 19 20).toList).drop 16
        = ((build_continue_prompt 2 20).toList).drop 15
    ∧ containsSub (("urgent").toList) (toLowerList ((build_continue_prompt 19 20).toList))
        = false
    ∧ containsSub (("make progress").toList)
        (toLowerList ((build_continue_prompt 12 20).toList)) = false := by
  refine ⟨?_, ?_, ?_⟩ <;> decide

end RlmRs

namespace RlmRs

/-- C6 (amended): every `llm_query` sub-LM request carries exactly one
user message whose content is the prompt string passed in (independent of
`context`, the history and prior sub-calls, which the request builder
never receives), with the root model; for the OpenAI backend it also
shares the root call endpoint, credential resolution and temperature
(and sets no `max_tokens`); for the Anthropic backend it shares the root
credential resolution but sets *no* temperature (while the root call sets
one whenever the configured temperature is positive) and fixes
`max_tokens` at 4096 regardless of the configuration. -/
theorem c6_sub_llm_request_shape (cfg : RlmConfig) (prompt : Str) (history : List Message) :
    (sub_llm_request cfg prompt).reqMessages = [Message.mkUser prompt]
    ∧ (sub_llm_request cfg prompt).reqModel = cfg.model
    ∧ (cfg.backend = Backend.openai →
        sub_llm_request cfg prompt = ProviderRequest.openai
          { base_url := (call_openai_request cfg history).base_url
            key := (call_openai_request cfg history).key
            model := (call_openai_request cfg history).model
            messages := [Message.mkUser prompt]
            temperature := (call_openai_request cfg history).temperature
            max_tokens := none })
    ∧ (cfg.backend = Backend.anthropic →
        (sub_llm_request cfg prompt).reqTemperature = none
        ∧ sub_llm_request cfg prompt = ProviderRequest.anthropic
            { key := (call_anthropic_request cfg history).key
              model := cfg.model
              max_tokens := 4096
              system := none
              messages := [Message.mkUser prompt]
              temperature := none }) := by
  cases hb : cfg.backend with
  | openai =>
    refine ⟨?_, ?_, ?_, ?_⟩
    · simp [sub_llm_request, hb, ProviderRequest.reqMessages]
    · simp [sub_llm_request, hb, ProviderRequest.reqModel]
    · intro _
      simp [sub_llm_request, hb, call_openai_request, openai_sub_key_source,
        openai_root_key_source]
    · intro hc
      exact absurd hc (by decide)
  | anthropic =>
    refine ⟨?_, ?_, ?_, ?_⟩
    · simp [sub_llm_request, hb, ProviderRequest.reqMessages]
    · simp [sub_llm_request, hb, ProviderRequest.reqModel]
    · intro hc
      exact absurd hc (by decide)
    · intro _
      refine ⟨by simp [sub_llm_request, hb, ProviderRequest.reqTemperature], ?_⟩
      simp [sub_llm_request, hb, call_anthropic_request, anthropic_sub_key_source,
        anthropic_root_key_source]

/-- C6 counterexample: with the Anthropic backend and a positive
configured temperature, the root request sets the temperature but the
sub-LM request leaves it unset — the sub-call does not run with the same
temperature as the root calls. -/
theorem c6_counterexample :
    (sub_llm_request cfgAnthropicEx (("p").toList)).reqTemperature = none
    ∧ (root_llm_request cfgAnthropicEx [Message.mkUser (("q").toList)]).reqTemperature
        = some 1
    ∧ (none : Option ℚ) ≠ some 1 := by
  refine ⟨rfl, ?_, by simp⟩
  show (call_anthropic_request cfgAnthropicEx _).temperature = some 1
  rw [call_anthropic_request]
  norm_num [cfgAnthropicEx]

theorem c6_witness :
    sub_llm_request cfgAnthropicEx (("p").toList) = ProviderRequest.anthropic
      { key := (call_anthropic_request cfgAnthropicEx [Message.mkUser (("q").toList)]).key
        model := cfgAnthropicEx.model
        max_tokens := 4096
        system := none
        messages := [Message.mkUser (("p").toList)]
        temperature := none } :=
  ((c6_sub_llm_request_shape cfgAnthropicEx (("p").toList)
      [Message.mkUser (("q").toList)]).2.2.2 rfl).2

end RlmRs

namespace RlmRs

theorem loopAux_cases {σ : Type} (env : Env σ) (cfg : RlmConfig) (prompt : Str) :
    ∀ (fuel iterNum : Nat) (history : List Message) (iterations : List RlmIteration)
      (usage : Usage) (s : σ),
      (∃ c, loopAux env cfg prompt fuel iterNum history iterations usage s = Except.ok c
          ∧ c.iterations.length ≤ iterations.length + fuel
          ∧ ∃ last, c.iterations.getLast? = some last
              ∧ last.final_answer = some c.response)
      ∨ loopAux env cfg prompt fuel iterNum history iterations usage s
          = Except.error (RlmError.maxIterationsReached cfg.max_iterations) := by
  intro fuel
  induction fuel with
  | zero =>
    intro iterNum history iterations usage s
    right
    rfl
  | succ n ih =>
    intro iterNum history iterations usage s
    cases hf : (runIteration env cfg history usage s).final with
    | some answer =>
      left
      refine ⟨⟨prompt, answer,
        iterations ++ [⟨iterNum, (runIteration env cfg history usage s).response,
          (runIteration env cfg history usage s).blocks, some answer⟩],
        ((runIteration env cfg history usage s).usage).addU
          (env.subUsage ((runIteration env cfg history usage s).state))⟩, ?_, ?_, ?_⟩
      · simp only [loopAux, hf]
      · simp only [List.length_append, List.length_cons, List.length_nil]
        omega
      · refine ⟨_, List.getLast?_concat _, rfl⟩
    | none =>
      have heq : loopAux env cfg prompt (n + 1) iterNum history iterations usage s
          = loopAux env cfg prompt n (iterNum + 1)
              ((runIteration env cfg history usage s).history
                ++ [Message.mkUser (build_continue_prompt iterNum cfg.max_iterations).toList])
              (iterations ++ [⟨iterNum, (runIteration env cfg history usage s).response,
                (runIteration env cfg history usage s).blocks, none⟩])
              ((runIteration env cfg history usage s).usage)
              ((runIteration env cfg history usage s).state) := by
        simp only [loopAux, hf]
      rcases ih (iterNum + 1)
          ((runIteration env cfg history usage s).history
            ++ [Message.mkUser (build_continue_prompt iterNum cfg.max_iterations).toList])
          (iterations ++ [⟨iterNum, (runIteration env cfg history usage s).response,
            (runIteration env cfg history usage s).blocks, none⟩])
          ((runIteration env cfg history usage s).usage)
          ((runIteration env cfg history usage s).state) with
        ⟨c, hc, hlen, hlast⟩ | herr
      · left
        refine ⟨c, by rw [heq]; exact hc, ?_, hlast⟩
        simp only [List.length_append, List.length_cons, List.length_nil] at hlen
        omega
      · right
        rw [heq]
        exact herr

/-- C1: every run of the completion loop either returns a `Completion`
whose iteration list is bounded by `max_iterations` and whose last
recorded final answer of the last iteration is exactly the returned response, or —
when no iteration detects a terminal answer — fails with the typed error
`MaxIterationsReached(max_iterations)` and returns no completion. -/
theorem c1_completion_dichotomy (σ : Type) (env : Env σ) (cfg : RlmConfig)
    (ctx : Str) (s₀ : σ) :
    (∃ c, completion_with_context env cfg ctx s₀ = Except.ok c
        ∧ c.iterations.length ≤ cfg.max_iterations
        ∧ ∃ last, c.iterations.getLast? = some last
            ∧ last.final_answer = some c.response)
    ∨ completion_with_context env cfg ctx s₀
        = Except.error (RlmError.maxIterationsReached cfg.max_iterations) := by
  have h := loopAux_cases env cfg ctx cfg.max_iterations 0
    [Message.mkSystem (build_system_prompt ctx.length).toList,
      Message.mkUser build_initial_user_prompt.toList] [] Usage.zero s₀
  simpa [completion_with_context] using h

end RlmRs

namespace RlmRs

theorem runIteration_final_detect {σ : Type} (env : Env σ) (cfg : RlmConfig)
    (history : List Message) (usage : Usage) (s : σ) :
    ∃ loc, (runIteration env cfg history usage s).final
        = detect_final_answer (runIteration env cfg history usage s).blocks
            (runIteration env cfg history usage s).response loc := by
  unfold runIteration
  cases h : (extract_code_blocks
      (truncate_after_first_repl_block (env.llm history).1)).head? with
  | some code =>
    simp only [h]
    exact ⟨_, rfl⟩
  | none =>
    simp only [h]
    exact ⟨_, rfl⟩

theorem loopAux_ok_detect {σ : Type} (env : Env σ) (cfg : RlmConfig) (prompt : Str) :
    ∀ (fuel iterNum : Nat) (history : List Message) (iterations : List RlmIteration)
      (usage : Usage) (s : σ) (c : RlmCompletion),
      loopAux env cfg prompt fuel iterNum history iterations usage s = Except.ok c →
      ∃ last loc, c.iterations.getLast? = some last
        ∧ detect_final_answer last.code_blocks last.response loc = some c.response := by
  intro fuel
  induction fuel with
  | zero =>
    intro iterNum history iterations usage s c h
    exact absurd h (by simp [loopAux])
  | succ n ih =>
    intro iterNum history iterations usage s c h
    cases hf : (runIteration env cfg history usage s).final with
    | some answer =>
      have heq : loopAux env cfg prompt (n + 1) iterNum history iterations usage s
          = Except.ok ⟨prompt, answer,
              iterations ++ [⟨iterNum, (runIteration env cfg history usage s).response,
                (runIteration env cfg history usage s).blocks, some answer⟩],
              ((runIteration env cfg history usage s).usage).addU
                (env.subUsage ((runIteration env cfg history usage s).state))⟩ := by
        simp only [loopAux, hf]
      rw [heq] at h
      cases h
      obtain ⟨loc, hdet⟩ := runIteration_final_detect env cfg history usage s
      refine ⟨_, loc, List.getLast?_concat _, ?_⟩
      show detect_final_answer ((runIteration env cfg history usage s).blocks)
        ((runIteration env cfg history usage s).response) loc = some answer
      rw [← hdet, hf]
    | none =>
      have heq : loopAux env cfg prompt (n + 1) iterNum history iterations usage s
          = loopAux env cfg prompt n (iterNum + 1)
              ((runIteration env cfg history usage s).history
                ++ [Message.mkUser (build_continue_prompt iterNum cfg.max_iterations).toList])
              (iterations ++ [⟨iterNum, (runIteration env cfg history usage s).response,
                (runIteration env cfg history usage s).blocks, none⟩])
              ((runIteration env cfg history usage s).usage)
              ((runIteration env cfg history usage s).state) := by
        simp only [loopAux, hf]
      rw [heq] at h
      exact ih _ _ _ _ _ _ h

end RlmRs

namespace RlmRs

/-- C2: the per-iteration terminal answer is chosen with precedence
`llm_output` channel value, else `FINAL_ANSWER: ` stdout line, else
`FINAL(...)` parsed from the truncated response; in particular a set
`llm_output` becomes the response of the Completion even when the text of
the same iteration carries a `FINAL(...)`. -/
theorem c2_final_answer_precedence (b : CodeBlock) (r : ReplResult) (resp : Str)
    (locals : List (Str × Str)) (v : Str) :
    (b.result = some r → r.llm_output = some v →
      detect_final_answer [b] resp locals = some v)
    ∧ (b.result = some r → r.llm_output = none →
        extract_final_answer_from_stdout r.stdout = some v →
        detect_final_answer [b] resp locals = some v)
    ∧ (b.result = some r → r.llm_output = none →
        extract_final_answer_from_stdout r.stdout = none →
        detect_final_answer [b] resp locals = extract_answer resp locals)
    ∧ (∀ (σ : Type) (env : Env σ) (cfg : RlmConfig) (ctx : Str) (s₀ : σ)
        (c : RlmCompletion) (last : RlmIteration),
        completion_with_context env cfg ctx s₀ = Except.ok c →
        c.iterations.getLast? = some last →
        last.code_blocks = [b] → b.result = some r → r.llm_output = some v →
        c.response = v) := by
  have hprec1 : ∀ (hb : b.result = some r), r.llm_output = some v →
      detect_final_answer [b] resp locals = some v := by
    intro hb hr
    unfold detect_final_answer
    simp [hb, hr]
  refine ⟨hprec1, ?_, ?_, ?_⟩
  · intro hb hr hs
    unfold detect_final_answer
    simp [hb, hr, hs]
  · intro hb hr hs
    unfold detect_final_answer
    simp [hb, hr, hs, Option.or, Option.orElse, extract_answer]
  · intro σ env cfg ctx s₀ c last hok hlast hblocks hb hr
    obtain ⟨last', loc, hlast', hdet⟩ :=
      loopAux_ok_detect env cfg ctx cfg.max_iterations 0
        [Message.mkSystem (build_system_prompt ctx.length).toList,
          Message.mkUser build_initial_user_prompt.toList] [] Usage.zero s₀ c
        (by simpa [completion_with_context] using hok)
    rw [hlast'] at hlast
    have heqlast := Option.some_inj.mp hlast
    subst heqlast
    rw [hblocks] at hdet
    have hv : detect_final_answer [b] last'.response loc = some v := by
      unfold detect_final_answer
      simp [hb, hr]
    rw [hdet] at hv
    exact Option.some_inj.mp hv

theorem c2_witness :
    detect_final_answer [⟨("code").toList, some resChanEx, 0⟩]
        (("FINAL(99)").toList) [] = some (("chan").toList) :=
  (c2_final_answer_precedence ⟨("code").toList, some resChanEx, 0⟩ resChanEx
    (("FINAL(99)").toList) [] (("chan").toList)).1 rfl rfl

end RlmRs

namespace RlmRs

theorem executeWithRetryAux_retry_le {σ : Type} (env : Env σ) (mr : Nat) :
    ∀ (fuel rc : Nat) (s : σ) (code : Str) (hist : List Message) (usage : Usage),
      rc ≤ mr →
      (executeWithRetryAux env mr fuel rc s code hist usage).block.retry_count ≤ mr := by
  intro fuel
  induction fuel with
  | zero => intro rc s code hist usage hrc; exact hrc
  | succ n ih =>
    intro rc s code hist usage hrc
    simp only [executeWithRetryAux]
    split
    · exact hrc
    · rename_i hcond
      have hlt : rc < mr := by
        rcases Nat.lt_or_ge rc mr with h | h
        · exact h
        · exact absurd (Or.inr h) hcond
      split
      · exact ih (rc + 1) _ _ _ _ (by omega)
      · exact (by omega : rc + 1 ≤ mr)

theorem executeWithRetryAux_exec_count {σ : Type} (env : Env σ) (mr : Nat) :
    ∀ (fuel rc : Nat) (p : σ × Nat) (code : Str) (hist : List Message) (usage : Usage),
      ((executeWithRetryAux (instrumentEnv env) mr fuel rc p code hist usage).state).2
        ≤ p.2 + fuel := by
  intro fuel
  induction fuel with
  | zero => intro rc p code hist usage; simp [executeWithRetryAux]
  | succ n ih =>
    intro rc p code hist usage
    simp only [executeWithRetryAux]
    split
    · simp [instrumentEnv]
    · split
      · refine le_trans (ih (rc + 1) _ _ _ _) ?_
        simp only [instrumentEnv]
        omega
      · simp only [instrumentEnv]
        omega

theorem executeWithRetryAux_all_fail {σ : Type} (env : Env σ) (mr : Nat)
    (hfail : ∀ (st : σ) (c : Str), ((env.execStep st c).1).success = false) :
    ∀ (fuel rc : Nat) (s : σ) (code : Str) (hist : List Message) (usage : Usage),
      rc ≤ mr → mr + 1 ≤ rc + fuel →
      (∃ r, (executeWithRetryAux env mr fuel rc s code hist usage).block.result = some r
          ∧ r.success = false)
      ∧ ((∀ h, (extract_code_blocks (env.llm h).1).head?.isSome = true) →
          (executeWithRetryAux env mr fuel rc s code hist usage).block.retry_count = mr) := by
  intro fuel
  induction fuel with
  | zero => intro rc s code hist usage hrc hfuel; omega
  | succ n ih =>
    intro rc s code hist usage hrc hfuel
    simp only [executeWithRetryAux]
    split
    · rename_i hcond
      rcases hcond with hsucc | hge
      · exact absurd hsucc (by simp [hfail s code])
      · have : rc = mr := by omega
        subst this
        exact ⟨⟨_, rfl, hfail s code⟩, fun _ => rfl⟩
    · rename_i hcond
      have hlt : rc < mr := by
        rcases Nat.lt_or_ge rc mr with h | h
        · exact h
        · exact absurd (Or.inr h) hcond
      split
      · exact ih (rc + 1) _ _ _ _ (by omega) (by omega)
      · rename_i hnone
        refine ⟨⟨_, rfl, hfail s code⟩, fun hblk => ?_⟩
        have := hblk (hist ++ [Message.mkUser (execResultMessage (env.execStep s code).1)]
          ++ [Message.mkUser fixPromptText.toList])
        rw [hnone] at this
        simp at this

end RlmRs

namespace RlmRs

/-- C5: execute-with-retry performs at most `max_exec_retries` retries
(the returned retry count is bounded by it, and — counting executions with
an instrumented interpreter — the code runs at most `max_exec_retries + 1`
times); when every execution fails it still returns normally with the last
block carrying its failure result (and, when the LM always supplies a
fixed block, with the retry count exactly `max_exec_retries`). -/
theorem c5_retry_bounds :
    (∀ (σ : Type) (env : Env σ) (mr : Nat) (s : σ) (code : Str)
        (hist : List Message) (usage : Usage),
      (execute_with_retry env mr s code hist usage).block.retry_count ≤ mr)
    ∧ (∀ (σ : Type) (env : Env σ) (mr : Nat) (p : σ × Nat) (code : Str)
        (hist : List Message) (usage : Usage),
      ((execute_with_retry (instrumentEnv env) mr p code hist usage).state).2
        ≤ p.2 + (mr + 1))
    ∧ (∀ (σ : Type) (env : Env σ) (mr : Nat) (s : σ) (code : Str)
        (hist : List Message) (usage : Usage),
      (∀ (st : σ) (c : Str), ((env.execStep st c).1).success = false) →
      (∃ r, (execute_with_retry env mr s code hist usage).block.result = some r
          ∧ r.success = false)
      ∧ ((∀ h, (extract_code_blocks (env.llm h).1).head?.isSome = true) →
          (execute_with_retry env mr s code hist usage).block.retry_count = mr)) := by
  refine ⟨?_, ?_, ?_⟩
  · intro σ env mr s code hist usage
    exact executeWithRetryAux_retry_le env mr (mr + 1) 0 s code hist usage (Nat.zero_le mr)
  · intro σ env mr p code hist usage
    exact executeWithRetryAux_exec_count env mr (mr + 1) 0 p code hist usage
  · intro σ env mr s code hist usage hfail
    exact executeWithRetryAux_all_fail env mr hfail (mr + 1) 0 s code hist usage
      (Nat.zero_le mr) (by omega)

theorem c5_witness :
    (execute_with_retry envFailEx 2 () (("code").toList) [] Usage.zero).block.retry_count = 2
    ∧ ∃ r, (execute_with_retry envFailEx 2 () (("code").toList) [] Usage.zero).block.result
        = some r ∧ r.success = false := by
  have h := c5_retry_bounds.2.2 Unit envFailEx 2 () (("code").toList) [] Usage.zero
    (fun st c => rfl)
  exact ⟨h.2 (fun hh => rfl), h.1⟩

end RlmRs

namespace RlmRs

/-! Section: concrete checks mirroring the Rust unit tests of parsing.rs -/

example : extract_code_blocks (("before\n```repl\nx = 1 + 1\nprint(x)\n```\nafter").toList)
    = [("x = 1 + 1\nprint(x)\n").toList] := by decide

example : extract_code_blocks (("```javascript\nconsole.log(1);\n```").toList) = [] := by
  decide

example : extract_final_answer (("The answer is FINAL(42)").toList)
    = some (("42").toList) := by decide

example : extract_final_answer (("No final answer here").toList) = none := by decide

example : extract_final_answer (("FINAL(The answer is foo(x) + bar(y, z))").toList)
    = some (("The answer is foo(x) + bar(y, z)").toList) := by decide

example : extract_final_answer (("FINAL(Output from executing code)\nFINAL(42)").toList)
    = some (("42").toList) := by decide

example : extract_final_answer (("xFINAL(42)").toList) = none := by decide

example : extract_final_answer (("FINAL(answer :) here)").toList)
    = some (("answer :) here").toList) := by decide

example : extract_answer (("FINAL(\"line1\\nline2\")").toList) []
    = some (("line1\nline2").toList) := by decide

example : extract_final_answer_from_stdout (("a\nFINAL_ANSWER: hi there\nrest").toList)
    = some (("hi there").toList) := by decide

example : truncate_after_first_repl_block (("no blocks at all").toList)
    = ("no blocks at all").toList := by decide

end RlmRs
